import Mathlib

/-!
Verification development for the gopu mini package registry.

The source (src/server.js, src/lib/storage.js) is a filesystem-backed
package metadata and artifact store.  Strings are modelled as `List Char`
(`Str`), JavaScript/JSON values as the inductive `Json`, and the
filesystem as an explicit `FS` state (a set of directories plus an
association list from paths to file contents).  Paths are lists of
segments; `path.join` normalisation is modelled by `normFrom`.
-/

namespace Gopu

/-- Strings are modelled as lists of characters for ease of induction. -/
abbrev Str := List Char

/-- Coerce a Lean string literal to the `Str` model. -/
def chars (s : String) : Str := s.data

/-! ## PathSanitizer (src/lib/storage.js lines 84-90) -/

/-- Model of one global-regex pass of `name.replace(/\.\./g, "")`:
deletes left-to-right non-overlapping occurrences of `..`. -/
def removeDotDot : Str → Str
  | '.' :: '.' :: t => removeDotDot t
  | c :: t => c :: removeDotDot t
  | [] => []

/-- Character class `[@\/a-zA-Z0-9\-\_\.]` of the package-name sanitizer. -/
def pkgAllowed (c : Char) : Bool :=
  c == '@' || c == '/' || c.isAlpha || c.isDigit || c == '-' || c == '_' || c == '.'

/-- `sanitizePkgName` (storage.js line 84): remove `..`, then replace every
character outside the allowed class with an underscore. -/
def sanitizePkgName (name : Str) : Str :=
  (removeDotDot name).map (fun c => if pkgAllowed c then c else '_')

/-- `sanitizeFilename` (storage.js line 88): remove `..`, then replace path
separators `/` and `\` with underscores. -/
def sanitizeFilename (name : Str) : Str :=
  (removeDotDot name).map (fun c => if c == '/' || c == '\\' then '_' else c)

/-- Decides whether a string contains two adjacent dots (a parent-directory
sequence `..`). -/
def hasDotDot : Str → Bool
  | [] => false
  | [_] => false
  | a :: b :: t => (a == '.' && b == '.') || hasDotDot (b :: t)

/-! ## JSON / JavaScript values -/

/-- JSON documents / JavaScript values as stored and manipulated by the
server.  Numbers are modelled as integers (no claim exercises non-integer
arithmetic). -/
inductive Json where
  | null
  | bool (b : Bool)
  | num (n : Int)
  | str (s : Str)
  | arr (elems : List Json)
  | obj (fields : List (Str × Json))

/-- JavaScript truthiness of a value: `null`, `false`, `0` and the empty
string are falsy, every object and array (including `{}` and `[]`) is
truthy. -/
def jsTruthy : Json → Bool
  | .null => false
  | .bool b => b
  | .num n => n != 0
  | .str s => !s.isEmpty
  | .arr _ => true
  | .obj _ => true

/-- Decides `typeof v === "object"`: true for objects, arrays and `null`. -/
def jsTypeofObject : Json → Bool
  | .obj _ => true
  | .arr _ => true
  | .null => true
  | _ => false

/-- First-match lookup in an association list of object fields, modelling
JavaScript property access `o[k]` (`none` models `undefined`). -/
def lookupA : List (Str × Json) → Str → Option Json
  | [], _ => none
  | (k, v) :: t, k2 => if k = k2 then some v else lookupA t k2

/-- Replace the value at the first occurrence of a key, or append the
binding, modelling JavaScript property assignment on an object. -/
def setA : List (Str × Json) → Str → Json → List (Str × Json)
  | [], k, v => [(k, v)]
  | (k1, v1) :: t, k, v => if k1 = k then (k, v) :: t else (k1, v1) :: setA t k v

/-- Decimal rendering of a natural number (the model of JavaScript
`String(n)` for the non-negative integers produced by `Date.now()`).
The fuel argument makes the definition structurally recursive so that it
evaluates by kernel reduction. -/
def natToStrAux : Nat → Nat → Str
  | 0, _ => []
  | fuel + 1, n =>
    if n < 10 then [Nat.digitChar n]
    else natToStrAux fuel (n / 10) ++ [Nat.digitChar (n % 10)]

/-- Value of a decimal digit character. -/
def digitVal (c : Char) : Nat := c.toNat - 48

/-- Decimal value of a digit string (most significant digit first). -/
def strVal (s : Str) : Nat := s.foldl (fun acc c => 10 * acc + digitVal c) 0

def natToStr (n : Nat) : Str := natToStrAux (n + 1) n

/-- Canonical-decimal array index parse: `some i` when the string is the
canonical decimal form of `i`, modelling which property keys of a
JavaScript array or string denote indices. -/
def parseIndex (s : Str) : Option Nat :=
  match s with
  | [] => none
  | _ =>
    if s.all (fun c => '0' ≤ c && c ≤ '9') then
      if natToStr (strVal s) = s then some (strVal s) else none
    else none

/-- JavaScript ToPropertyKey / ToString coercion used when a value is used
as an object key (`meta.versions[version]`).  Objects and arrays are
approximated by the `[object Object]` form; no claim coerces them. -/
def jsPropKey : Json → Str
  | .str s => s
  | .num n => if n < 0 then '-' :: natToStr n.natAbs else natToStr n.natAbs
  | .bool b => if b then chars "true" else chars "false"
  | .null => chars "null"
  | .arr _ => chars "[object Object]"
  | .obj _ => chars "[object Object]"

/-- JavaScript property read `v[k]`.  On objects: first-match field lookup;
on arrays and strings only canonical numeric indices are modelled (the
handlers never read `length` or other built-in properties); on other
primitives every property is `undefined` (`none`). -/
def jsGet : Json → Str → Option Json
  | .obj l, k => lookupA l k
  | .arr es, k =>
    (match parseIndex k with
     | some i => es.get? i
     | none => none)
  | .str s, k =>
    (match parseIndex k with
     | some i => (s.get? i).map (fun c => Json.str [c])
     | none => none)
  | _, _ => none

/-- JavaScript property assignment `v[k] = x` in strict-mode module code:
succeeds on objects, throws a TypeError (`none`) on primitives.
Expando assignment onto arrays is not modelled: in every handler flow the
assigned receiver originates as a plain object. -/
def jsSet : Json → Str → Json → Option Json
  | .obj l, k, v => some (Json.obj (setA l k v))
  | _, _, _ => none

/-- JavaScript `x || d`: the left operand if truthy, otherwise the default
(an absent value `none` stands for `undefined`, which is falsy). -/
def truthyOr (v : Option Json) (d : Json) : Json :=
  match v with
  | some x => if jsTruthy x then x else d
  | none => d

/-- Model of `Object.assign({}, meta)` (storage.js line 38): a shallow copy
of an object is the same document; an array or string spreads its indexed
elements into a fresh object; other primitives contribute nothing. -/
def objAssign : Json → Json
  | .obj l => Json.obj l
  | .arr es => Json.obj (es.enum.map (fun p => (natToStr p.1, p.2)))
  | .str s => Json.obj (s.enum.map (fun p => (natToStr p.1, Json.str [p.2])))
  | _ => Json.obj []

/-! ## encodeURIComponent -/

/-- Characters left unescaped by `encodeURIComponent`. -/
def isUriUnreserved (c : Char) : Bool :=
  c.isAlpha || c.isDigit || c == '-' || c == '_' || c == '.' || c == '!' ||
    c == '~' || c == '*' || c == Char.ofNat 39 || c == '(' || c == ')'

/-- Uppercase hexadecimal digit. -/
def hexDigitChar (n : Nat) : Char :=
  if n < 10 then Char.ofNat (48 + n) else Char.ofNat (55 + n)

/-- UTF-8 byte sequence of a character. -/
def utf8Bytes (c : Char) : List Nat :=
  let n := c.toNat
  if n < 128 then [n]
  else if n < 2048 then [192 + n / 64, 128 + n % 64]
  else if n < 65536 then [224 + n / 4096, 128 + n / 64 % 64, 128 + n % 64]
  else [240 + n / 262144, 128 + n / 4096 % 64, 128 + n / 64 % 64, 128 + n % 64]

/-- Percent-escape of one byte. -/
def pctByte (b : Nat) : Str := ['%', hexDigitChar (b / 16), hexDigitChar (b % 16)]

/-- Model of JavaScript `encodeURIComponent`. -/
def encodeURIComponent (s : Str) : Str :=
  (s.map (fun c =>
    if isUriUnreserved c then [c] else ((utf8Bytes c).map pctByte).flatten)).flatten

/-! ## Paths and path.join normalisation -/

/-- A filesystem path as a list of segments, relative to the storage root. -/
abbrev Path := List Str

/-- Split a string into path segments at `/` (accumulator holds the current
segment reversed). -/
def splitSegsAux (cur : Str) : Str → List Str
  | [] => [cur.reverse]
  | '/' :: t => cur.reverse :: splitSegsAux [] t
  | c :: t => splitSegsAux (c :: cur) t

def splitSegs (s : Str) : List Str := splitSegsAux [] s

/-- Node-style path normalisation folded over segments starting from an
already-normalised base: empty and `.` segments vanish, `..` pops the last
segment, everything else is appended.  `path.join(a, b, c)` on an
absolute normalised `a` is `normFrom (segments of a) (segments of b and c)`. -/
def normFrom (base : List Str) (segs : List Str) : List Str :=
  segs.foldl
    (fun acc seg =>
      if seg = [] then acc
      else if seg = ['.'] then acc
      else if seg = ['.', '.'] then acc.dropLast
      else acc ++ [seg])
    base

/-! ## Filesystem state -/

/-- Contents of one file: a well-formed JSON text (serialisation is
modelled by storing the document itself), arbitrary non-JSON text (which
fails to parse), or raw bytes. -/
inductive Content where
  | json (j : Json)
  | text (s : Str)
  | bytes (b : List Nat)

/-- Model of `JSON.parse` on a file's contents: a stored JSON document
parses to itself, anything else throws (`none`). -/
def parseJSON : Content → Option Json
  | .json j => some j
  | _ => none

/-- First-match lookup of a file by path. -/
def lookupF : List (Path × Content) → Path → Option Content
  | [], _ => none
  | (p, c) :: t, q => if p = q then some c else lookupF t q

/-- Replace the contents at the first occurrence of a path, or append. -/
def setF : List (Path × Content) → Path → Content → List (Path × Content)
  | [], p, c => [(p, c)]
  | (p1, c1) :: t, p, c => if p1 = p then (p, c) :: t else (p1, c1) :: setF t p c

/-- Remove every entry at the given path. -/
def eraseF : List (Path × Content) → Path → List (Path × Content)
  | [], _ => []
  | e :: t, p => if e.1 = p then eraseF t p else e :: eraseF t p

/-- The filesystem tree under the storage root: the set of directories that
exist (in creation order) and an association list from file paths to
contents. -/
structure FS where
  dirs : List Path
  files : List (Path × Content)

def emptyFS : FS := ⟨[], []⟩

def FS.lookupFile (fs : FS) (p : Path) : Option Content := lookupF fs.files p

/-- `fs.writeFile`: create or overwrite a file. -/
def FS.writeFile (fs : FS) (p : Path) (c : Content) : FS :=
  { fs with files := setF fs.files p c }

/-- `fs.rename(src, dst)`: move a file over the destination, atomically
replacing it.  A missing source leaves the state unchanged (the error case
is never reached by the storage code, which always writes `src` first). -/
def FS.rename (fs : FS) (src dst : Path) : FS :=
  match lookupF fs.files src with
  | some c => { fs with files := setF (eraseF fs.files src) dst c }
  | none => fs

/-- Record one directory as existing (idempotent, preserving creation
order, which fixes the enumeration order of `readdir`). -/
def FS.insertDir (fs : FS) (p : Path) : FS :=
  if p ∈ fs.dirs then fs else { fs with dirs := fs.dirs ++ [p] }

/-- All non-empty prefixes of a path, shortest first. -/
def pathPrefixes (p : Path) : List Path :=
  (List.range p.length).map (fun i => p.take (i + 1))

/-- `fs.mkdir(p, { recursive: true })`: create the directory and every
ancestor; never fails, idempotent. -/
def FS.mkdirRec (fs : FS) (p : Path) : FS :=
  (pathPrefixes p).foldl FS.insertDir fs

/-- The immediate child of `p` reached by `q`, if `q = p ++ [n]`. -/
def childOf (p q : Path) : Option Str :=
  if q.take p.length = p then
    match q.drop p.length with
    | [n] => some n
    | _ => none
  else none

/-- `fs.readdir(p, { withFileTypes: true })`: the immediate children of a
directory with their is-directory flag, or `none` (a thrown error) when
the directory does not exist. -/
def FS.readdirEntries (fs : FS) (p : Path) : Option (List (Str × Bool)) :=
  if p ∈ fs.dirs ∨ p = [] then
    some ((fs.dirs.filterMap (fun d => (childOf p d).map (fun n => (n, true)))) ++
      (fs.files.filterMap (fun f => (childOf p f.1).map (fun n => (n, false)))))
  else none

/-- `fs.access(p)` succeeds when a file or directory exists at `p`. -/
def FS.accessOk (fs : FS) (p : Path) : Bool :=
  (lookupF fs.files p).isSome || decide (p ∈ fs.dirs)

/-! ## MetadataStore / ArtifactStore (src/lib/storage.js) -/

/-- The directory of a package: `path.join(base, "packages", sanitizePkgName(pkg))`
as segments relative to the storage root. -/
def pkgDirPath (pkg : Str) : Path :=
  normFrom [] (chars "packages" :: splitSegs (sanitizePkgName pkg))

/-- The descriptor path `path.join(pkgDir, "meta.json")`. -/
def metaPath (pkg : Str) : Path := pkgDirPath pkg ++ [chars "meta.json"]

/-- `ensurePackageDir` (storage.js lines 17-22): create the package
directory and its `tarballs` subdirectory. -/
def ensurePackageDir (fs : FS) (pkg : Str) : FS × Path :=
  let pkgDir := pkgDirPath pkg
  let fs1 := fs.mkdirRec pkgDir
  let fs2 := fs1.mkdirRec (pkgDir ++ [chars "tarballs"])
  (fs2, pkgDir)

/-- `readPackageMeta` (storage.js lines 24-33): read and parse the
descriptor; any error (missing file or parse failure) yields the JavaScript
`null` sentinel, modelled by `Json.null`. -/
def readPackageMeta (fs : FS) (pkg : Str) : Json :=
  match fs.lookupFile (metaPath pkg) with
  | none => Json.null
  | some c =>
    match parseJSON c with
    | none => Json.null
    | some j => j

/-- Temporary-file suffix `".tmp-" + Date.now()` (storage.js line 40). -/
def tmpSuffix (now : Nat) : Str := chars ".tmp-" ++ natToStr now

/-- The temporary path `metaPath + ".tmp-" + Date.now()` used by one
`writePackageMeta` invocation: string concatenation extends the final
segment, so the temporary file sits in the same directory. -/
def writeTmpPath (pkg : Str) (now : Nat) : Path :=
  pkgDirPath pkg ++ [chars "meta.json" ++ tmpSuffix now]

/-- `writePackageMeta` (storage.js lines 35-44): ensure the directory,
shallow-copy the document, serialise it to the temporary file, then rename
the temporary file over `meta.json`.  `now` is the observed `Date.now()`. -/
def writePackageMeta (fs : FS) (pkg : Str) (meta : Json) (now : Nat) : FS × Path :=
  let (fs1, pkgDir) := ensurePackageDir fs pkg
  let metaP := pkgDir ++ [chars "meta.json"]
  let normalized := objAssign meta
  let tmp := writeTmpPath pkg now
  let fs2 := fs1.writeFile tmp (Content.json normalized)
  let fs3 := fs2.rename tmp metaP
  (fs3, metaP)

/-- The synthesized empty descriptor `{ name: pkg, versions: {} }`. -/
def emptyDescriptor (pkg : Str) : Json :=
  Json.obj [(chars "name", Json.str pkg), (chars "versions", Json.obj [])]

/-- `listAllPackages` (storage.js lines 46-61): enumerate the children of
the packages root, keep the directories, and read each one's descriptor,
substituting the synthesized empty descriptor for falsy results.  An
enumeration failure yields the empty mapping. -/
def listAllPackages (fs : FS) : List (Str × Json) :=
  match fs.readdirEntries [chars "packages"] with
  | none => []
  | some entries =>
    entries.foldl
      (fun acc e =>
        if e.2 then
          acc ++ [(e.1,
            let meta := readPackageMeta fs e.1
            if jsTruthy meta then meta else emptyDescriptor e.1)]
        else acc)
      []

/-- The artifact path `path.join(pkgDir, "tarballs", sanitizeFilename(filename))`. -/
def tarballPath (pkg filename : Str) : Path :=
  normFrom (pkgDirPath pkg) [chars "tarballs", sanitizeFilename filename]

/-- `saveTarball` (storage.js lines 63-70): ensure the directory and write
the bytes to the sanitized artifact path (no temp file, overwrite). -/
def saveTarball (fs : FS) (pkg filename : Str) (buffer : List Nat) : FS × Path :=
  let fs1 := (ensurePackageDir fs pkg).1
  let outPath := tarballPath pkg filename
  let fs2 := fs1.writeFile outPath (Content.bytes buffer)
  (fs2, outPath)

/-- `getTarballPath` (storage.js lines 72-81): the artifact path when it
exists, otherwise the absent sentinel. -/
def getTarballPath (fs : FS) (pkg filename : Str) : Option Path :=
  let outPath := tarballPath pkg filename
  if fs.accessOk outPath then some outPath else none

/-- The bytes streamed by the download handler: contents of the file at the
path returned by `getTarballPath`. -/
def getTarballBytes (fs : FS) (pkg filename : Str) : Option Content :=
  match getTarballPath fs pkg filename with
  | some p => fs.lookupFile p
  | none => none

/-! ## Server handlers (src/server.js) -/

/-- Outcome of the metadata-publish handler `PUT /:pkg`. -/
inductive PutResult where
  | created
  | invalidBody
  deriving DecidableEq

/-- Handler `app.put("/:pkg")` (server.js lines 89-102): reject a falsy or
non-object body with 400 `invalid_body` before touching the filesystem,
otherwise ensure the package directory and write the descriptor. -/
def putPkgMeta (fs : FS) (pkg : Str) (body : Json) (now : Nat) : FS × PutResult :=
  if !jsTruthy body || !jsTypeofObject body then (fs, PutResult.invalidBody)
  else
    let fs1 := (ensurePackageDir fs pkg).1
    let fs2 := (writePackageMeta fs1 pkg body now).1
    (fs2, PutResult.created)

/-- The canonical tarball locator
scheme, host, url-escaped package name, the dash segment, url-escaped filename
(server.js line 138). -/
def tarballUrl (protocol host pkg filename : Str) : Str :=
  protocol ++ chars "://" ++ host ++ chars "/" ++ encodeURIComponent pkg ++
    chars "/-/" ++ encodeURIComponent filename

/-- Version-key resolution (server.js line 135):
`meta["dist-tags"] && meta["dist-tags"].latest ? meta["dist-tags"].latest : "0.0.0"`,
with the chosen value coerced to a property key. -/
def resolveVersion (meta : Json) : Str :=
  match jsGet meta (chars "dist-tags") with
  | some dt =>
    if jsTruthy dt then
      match jsGet dt (chars "latest") with
      | some l => if jsTruthy l then jsPropKey l else chars "0.0.0"
      | none => chars "0.0.0"
    else chars "0.0.0"
  | none => chars "0.0.0"

/-- The descriptor mutation of the upload handler (server.js lines 133-138):

    meta.versions = meta.versions || {};
    const version = ...;
    meta.versions[version] = meta.versions[version] || {};
    meta.versions[version].dist = meta.versions[version].dist || {};
    meta.versions[version].dist.tarball = url;

In-place mutation is modelled by rebuilding the path of objects after each
assignment; a strict-mode TypeError (assigning a property on a primitive)
yields `none`, which the handler reports as a 500. -/
def uploadUpdateMeta (meta0 : Json) (url : Str) : Option Json :=
  let versions1 := truthyOr (jsGet meta0 (chars "versions")) (Json.obj [])
  match jsSet meta0 (chars "versions") versions1 with
  | none => none
  | some meta1 =>
    let version := resolveVersion meta1
    let verRec1 := truthyOr (jsGet versions1 version) (Json.obj [])
    match jsSet versions1 version verRec1 with
    | none => none
    | some versions2 =>
      let dist1 := truthyOr (jsGet verRec1 (chars "dist")) (Json.obj [])
      match jsSet verRec1 (chars "dist") dist1 with
      | none => none
      | some verRec2 =>
        match jsSet dist1 (chars "tarball") (Json.str url) with
        | none => none
        | some dist2 =>
          match jsSet verRec2 (chars "dist") dist2 with
          | none => none
          | some verRec3 =>
            match jsSet versions2 version verRec3 with
            | none => none
            | some versions3 => jsSet meta1 (chars "versions") versions3

/-- Outcome of the tarball upload handler. -/
inductive UploadResult where
  | ok
  | noTarball
  | serverError
  deriving DecidableEq

/-- Upload handler (server.js lines 106-144, PUT on pkg, dash, filename):
reject an empty body; otherwise store the tarball, load (or synthesize)
the descriptor, bind the tarball locator into the resolved version, and
persist the descriptor atomically. -/
def uploadTarball (fs : FS) (pkg filename : Str) (body : List Nat)
    (protocol host : Str) (now : Nat) : FS × UploadResult :=
  if body.isEmpty then (fs, UploadResult.noTarball)
  else
    let fs1 := (ensurePackageDir fs pkg).1
    let fs2 := (saveTarball fs1 pkg filename body).1
    let metaRead := readPackageMeta fs2 pkg
    let meta0 := if jsTruthy metaRead then metaRead else emptyDescriptor pkg
    match uploadUpdateMeta meta0 (tarballUrl protocol host pkg filename) with
    | none => (fs2, UploadResult.serverError)
    | some meta4 => ((writePackageMeta fs2 pkg meta4 now).1, UploadResult.ok)

/-- Reading a descriptor path of a general absolute storage root:
`path.join(base, "packages", sanitizePkgName(pkg))` where `root` is the
segment list of an already-normalised absolute base directory. -/
def storagePath (root : List Str) (pkg : Str) : List Str :=
  normFrom root (chars "packages" :: splitSegs (sanitizePkgName pkg))

/-! ## Derived definitions and concrete sample data used by the claims -/

/-- One invocation of `writePackageMeta`, identified by its arguments and
the `Date.now()` value it observes. -/
structure WriteInvocation where
  pkg : Str
  meta : Json
  now : Nat

/-- The temporary file used by an invocation (storage.js line 40): it
depends only on the destination path and the observed timestamp. -/
def invTmpPath (i : WriteInvocation) : Path := writeTmpPath i.pkg i.now

/-- A store holding an unparseable descriptor for package `a`. -/
def corruptFS : FS :=
  FS.mk [] [(metaPath (chars "a"), Content.text (chars "not json"))]

/-- Whether a value is a plain object (a structured mapping). -/
def isObj : Json → Bool
  | .obj _ => true
  | _ => false

/-- The store after publishing descriptors for `a` and `@scope/b`. -/
def publishTwo (Da Db : List (Str × Json)) (t1 t2 : Nat) : FS :=
  (writePackageMeta (writePackageMeta emptyFS (chars "a") (Json.obj Da) t1).1
    (chars "@scope/b") (Json.obj Db) t2).1

/-- Two-step property read `v[k1][k2]` (`none` when either step is
`undefined`). -/
def jsGet2 (j : Json) (k1 k2 : Str) : Option Json :=
  match jsGet j k1 with
  | some x => jsGet x k2
  | none => none

/-- Chained property read along a list of keys. -/
def jsGetPath : Json → List Str → Option Json
  | j, [] => some j
  | j, k :: ks =>
    match jsGet j k with
    | some x => jsGetPath x ks
    | none => none

/-- The value read by `meta.versions || {}` (server.js line 133). -/
def readVersions (meta : Json) : Json :=
  truthyOr (jsGet meta (chars "versions")) (Json.obj [])

/-- The value read by `meta.versions[version] || {}` (server.js line 136). -/
def readVersionRec (meta : Json) (ver : Str) : Json :=
  truthyOr (jsGet (readVersions meta) ver) (Json.obj [])

/-- The value read by `meta.versions[version].dist || {}` (server.js line 137). -/
def readDistObj (meta : Json) (ver : Str) : Json :=
  truthyOr (jsGet (readVersionRec meta ver) (chars "dist")) (Json.obj [])

/-- Descriptor with `dist-tags.latest` present but equal to the empty
string, and an existing (empty) record under the empty-string version key. -/
def metaEmptyLatest : List (Str × Json) :=
  [(chars "dist-tags", Json.obj [(chars "latest", Json.str [])]),
   (chars "versions", Json.obj [([], Json.obj [])])]

/-- Witness for `latest_tag_resolution`: with `dist-tags.latest = "2.1.0"`
the upload updates `versions["2.1.0"].dist.tarball` and creates no
`0.0.0` entry. -/
def metaLatest21 : List (Str × Json) :=
  [(chars "dist-tags", Json.obj [(chars "latest", Json.str (chars "2.1.0"))]),
   (chars "versions", Json.obj [])]

def metaLatest21Result : Json :=
  (uploadUpdateMeta (Json.obj metaLatest21) (chars "u")).getD Json.null

/-- A descriptor with a name, a latest tag, an unrelated version entry,
and extra fields in the resolved record and its dist object. -/
def metaFrameSample : List (Str × Json) :=
  [(chars "name", Json.str (chars "x")),
   (chars "dist-tags", Json.obj [(chars "latest", Json.str (chars "2.1.0"))]),
   (chars "versions", Json.obj
     [(chars "2.1.0", Json.obj
        [(chars "extra", Json.num 1),
         (chars "dist", Json.obj [(chars "shasum", Json.str (chars "s"))])]),
      (chars "1.0.0", Json.obj [])])]

def metaFrameSampleResult : Json :=
  (uploadUpdateMeta (Json.obj metaFrameSample) (chars "u")).getD Json.null

/-! ## Lemmas: adjacent-dot tracking through the sanitizers -/

theorem hasDotDot_cons_cons (a b : Char) (t : Str) :
    hasDotDot (a :: b :: t) = ((a == '.' && b == '.') || hasDotDot (b :: t)) := rfl

theorem hasDotDot_append_right (a : Str) {b : Str} (h : hasDotDot b = true) :
    hasDotDot (a ++ b) = true := by
  induction a with
  | nil => simpa using h
  | cons c a2 ih =>
    cases a2 with
    | nil =>
      cases b with
      | nil => simp [hasDotDot] at h
      | cons d b2 =>
        simpa [hasDotDot_cons_cons] using Or.inr h
    | cons d a3 =>
      simpa [hasDotDot_cons_cons] using Or.inr ih

theorem hasDotDot_append_left {a : Str} (b : Str) (h : hasDotDot a = true) :
    hasDotDot (a ++ b) = true := by
  induction a with
  | nil => simp [hasDotDot] at h
  | cons c a2 ih =>
    cases a2 with
    | nil => simp [hasDotDot] at h
    | cons d a3 =>
      rw [hasDotDot_cons_cons] at h
      rcases Bool.or_eq_true_iff.mp h with h1 | h2
      · simpa [hasDotDot_cons_cons] using Or.inl h1
      · simpa [hasDotDot_cons_cons] using Or.inr (ih h2)

theorem removeDotDot_cons_of_ne {c : Char} (h : ¬(c = '.' ∧ ∃ t2, t = '.' :: t2)) :
    removeDotDot (c :: t) = c :: removeDotDot t := by
  rw [removeDotDot.eq_def]
  split
  · rename_i t2 heq
    rw [List.cons.injEq] at heq
    exact absurd ⟨heq.1, t2, heq.2⟩ h
  · rename_i c2 t2 hne heq
    rw [List.cons.injEq] at heq
    rw [heq.1, heq.2]
  · rename_i heq
    exact absurd heq (by simp)

theorem removeDotDot_noDotDot (s : Str) : hasDotDot (removeDotDot s) = false := by
  induction s using removeDotDot.induct with
  | case1 t ih => simpa [removeDotDot] using ih
  | case2 c t hne ih =>
    have hc : ¬(c = '.' ∧ ∃ t2, t = '.' :: t2) := by
      rintro ⟨rfl, t2, rfl⟩
      exact hne t2 rfl rfl
    rw [removeDotDot_cons_of_ne hc]
    cases hrt : removeDotDot t with
    | nil => rfl
    | cons d r2 =>
      have ih2 : hasDotDot (d :: r2) = false := by rw [hrt] at ih; exact ih
      rw [hasDotDot_cons_cons, ih2, Bool.or_false]
      by_cases hcd : c = '.'
      · subst hcd
        cases t with
        | nil => simp [removeDotDot] at hrt
        | cons e t2 =>
          have he : e ≠ '.' := fun h2 => hc ⟨rfl, t2, h2 ▸ rfl⟩
          rw [removeDotDot_cons_of_ne (by rintro ⟨h3, _⟩; exact he h3)] at hrt
          rw [List.cons.injEq] at hrt
          simp [← hrt.1, he]
      · simp [hcd]
  | case3 => rfl

theorem hasDotDot_map {f : Char → Char} (hf : ∀ c, f c = '.' → c = '.') :
    ∀ {s : Str}, hasDotDot s = false → hasDotDot (s.map f) = false := by
  intro s
  induction s with
  | nil => intro _; rfl
  | cons c t ih =>
    intro h
    cases t with
    | nil => rfl
    | cons d t2 =>
      rw [hasDotDot_cons_cons, Bool.or_eq_false_iff] at h
      rw [List.map_cons, List.map_cons, hasDotDot_cons_cons,
        ← List.map_cons f d t2, Bool.or_eq_false_iff]
      refine ⟨?_, ih h.2⟩
      rcases Bool.and_eq_false_iff.mp h.1 with h1 | h1 <;>
        simp only [Bool.and_eq_false_iff, beq_eq_false_iff_ne, ne_eq] at *
      · exact Or.inl (fun hc => h1 (hf c hc))
      · exact Or.inr (fun hd => h1 (hf d hd))

theorem sanitizePkgName_noDotDot (s : Str) : hasDotDot (sanitizePkgName s) = false := by
  refine hasDotDot_map ?_ (removeDotDot_noDotDot s)
  intro c hc
  by_cases h : pkgAllowed c
  · simpa [h] using hc
  · simp [h] at hc

theorem sanitizeFilename_noDotDot (s : Str) : hasDotDot (sanitizeFilename s) = false := by
  refine hasDotDot_map ?_ (removeDotDot_noDotDot s)
  intro c hc
  by_cases h : (c == '/' || c == '\\') = true
  · simp [h] at hc
  · simpa [h] using hc

theorem splitSegsAux_slash (cur t : Str) :
    splitSegsAux cur ('/' :: t) = cur.reverse :: splitSegsAux [] t := rfl

theorem splitSegsAux_cons {c : Char} (h : c ≠ '/') (cur t : Str) :
    splitSegsAux cur (c :: t) = splitSegsAux (c :: cur) t := by
  rw [splitSegsAux.eq_def]
  split
  · rename_i heq
    exact absurd heq (by simp)
  · rename_i t2 heq
    rw [List.cons.injEq] at heq
    exact absurd heq.1 h
  · rename_i c2 t2 hne heq
    rw [List.cons.injEq] at heq
    rw [heq.1, heq.2]

theorem splitSegsAux_ne_dotdot (s : Str) :
    ∀ (cur : Str), hasDotDot (cur.reverse ++ s) = false →
      ∀ seg ∈ splitSegsAux cur s, seg ≠ ['.', '.'] := by
  induction s with
  | nil =>
    intro cur h seg hseg
    simp only [splitSegsAux, List.mem_singleton] at hseg
    subst hseg
    intro heq
    rw [List.append_nil, heq] at h
    exact absurd h (by decide)
  | cons c t ih =>
    intro cur h
    by_cases hc : c = '/'
    · subst hc
      rw [splitSegsAux_slash]
      intro seg hseg
      rcases List.mem_cons.mp hseg with hseg | hseg
      · subst hseg
        intro heq
        rw [heq] at h
        rw [hasDotDot_append_left _ (by decide)] at h
        exact Bool.true_eq_false.mp h
      · refine ih [] ?_ seg hseg
        simp only [List.reverse_nil, List.nil_append]
        cases ht : hasDotDot t
        · rfl
        · have h1 : hasDotDot ('/' :: t) = true := by
            simpa using hasDotDot_append_right ['/'] ht
          have h2 : hasDotDot (cur.reverse ++ '/' :: t) = true :=
            hasDotDot_append_right cur.reverse h1
          rw [h2] at h
          exact absurd h (by simp)
    · rw [splitSegsAux_cons hc]
      apply ih (c :: cur)
      rw [List.reverse_cons, List.append_assoc]
      simpa using h

theorem splitSegs_ne_dotdot {s : Str} (h : hasDotDot s = false) :
    ∀ seg ∈ splitSegs s, seg ≠ ['.', '.'] :=
  splitSegsAux_ne_dotdot s [] (by simpa using h)

theorem normFrom_prefix (base : List Str) {segs : List Str}
    (h : ∀ seg ∈ segs, seg ≠ ['.', '.']) : base <+: normFrom base segs := by
  induction segs generalizing base with
  | nil => exact List.prefix_refl base
  | cons seg rest ih =>
    have hseg : seg ≠ ['.', '.'] := h seg (List.mem_cons_self seg rest)
    have hrest : ∀ s2 ∈ rest, s2 ≠ ['.', '.'] := fun s2 hs2 => h s2 (List.mem_cons_of_mem seg hs2)
    show (List.foldl _ base (seg :: rest)) |> (base <+: ·)
    rw [List.foldl_cons]
    by_cases h1 : seg = []
    · simpa [h1] using ih base hrest
    · by_cases h2 : seg = ['.']
      · simpa [h1, h2] using ih base hrest
      · have hstep :
            (if seg = [] then base
             else if seg = ['.'] then base
             else if seg = ['.', '.'] then base.dropLast
             else base ++ [seg]) = base ++ [seg] := by
          rw [if_neg h1, if_neg h2, if_neg hseg]
        rw [hstep]
        exact (List.prefix_append base [seg]).trans (ih (base ++ [seg]) hrest)

/-- Claim C1.  Sanitization safety: for every raw input, the keys produced
by `sanitizePkgName` and `sanitizeFilename` contain no parent-directory
sequence `..`, and `path.join(root, "packages", key)` resolves to a path
that lies strictly inside the storage root (the root is a proper prefix of
the resolved path). -/
theorem sanitization_safety (raw : Str) (root : List Str) :
    hasDotDot (sanitizePkgName raw) = false ∧
    hasDotDot (sanitizeFilename raw) = false ∧
    root <+: storagePath root raw ∧
    storagePath root raw ≠ root := by
  refine ⟨sanitizePkgName_noDotDot raw, sanitizeFilename_noDotDot raw, ?_, ?_⟩
  all_goals
    have hsegs : ∀ seg ∈ splitSegs (sanitizePkgName raw), seg ≠ ['.', '.'] :=
      splitSegs_ne_dotdot (sanitizePkgName_noDotDot raw)
    have hstep : storagePath root raw =
        normFrom (root ++ [chars "packages"]) (splitSegs (sanitizePkgName raw)) := by
      show List.foldl _ root (chars "packages" :: _) = _
      rw [List.foldl_cons, if_neg (by decide), if_neg (by decide), if_neg (by decide)]
      rfl
    have hpre : (root ++ [chars "packages"]) <+: storagePath root raw := by
      rw [hstep]; exact normFrom_prefix (root ++ [chars "packages"]) hsegs
  · exact ((List.prefix_append root [chars "packages"]).trans hpre)
  · intro heq
    have hlen := hpre.length_le
    rw [heq] at hlen
    simp at hlen

/-! ## Lemmas: idempotence of the sanitizers (Claim C10) -/

theorem removeDotDot_eq_self {s : Str} (h : hasDotDot s = false) :
    removeDotDot s = s := by
  induction s using removeDotDot.induct with
  | case1 t ih => exact absurd h (by simp [hasDotDot_cons_cons])
  | case2 c t hne ih =>
    have hc : ¬(c = '.' ∧ ∃ t2, t = '.' :: t2) := by
      rintro ⟨rfl, t2, rfl⟩
      exact hne t2 rfl rfl
    rw [removeDotDot_cons_of_ne hc]
    have ht : hasDotDot t = false := by
      cases ht2 : hasDotDot t
      · rfl
      · have := hasDotDot_append_right [c] ht2
        rw [List.singleton_append] at this
        rw [this] at h
        exact absurd h (by simp)
    rw [ih ht]
  | case3 => rfl

/-- Claim C10.  Both sanitizers are idempotent: re-sanitizing an already
sanitized key (as `listAllPackages` implicitly does when it reads back each
enumerated directory name through `readPackageMeta`) yields the same key. -/
theorem sanitize_map_idem (f : Char → Char) (hrefl : ∀ c, f c = '.' → c = '.')
    (hidem : ∀ c, f (f c) = f c) (s : Str) :
    (removeDotDot ((removeDotDot s).map f)).map f = (removeDotDot s).map f := by
  have hnd : hasDotDot ((removeDotDot s).map f) = false :=
    hasDotDot_map hrefl (removeDotDot_noDotDot s)
  rw [removeDotDot_eq_self hnd, List.map_map]
  refine List.map_congr_left (fun c _ => ?_)
  simpa using hidem c

/-- Claim C10.  Both sanitizers are idempotent: re-sanitizing an already
sanitized key (as `listAllPackages` implicitly does when it reads back each
enumerated directory name through `readPackageMeta`) yields the same key. -/
theorem sanitize_idempotent (s : Str) :
    sanitizePkgName (sanitizePkgName s) = sanitizePkgName s ∧
    sanitizeFilename (sanitizeFilename s) = sanitizeFilename s := by
  constructor
  · refine sanitize_map_idem _ ?_ ?_ s
    · intro c hc
      by_cases h : pkgAllowed c
      · simpa [h] using hc
      · simp [h] at hc
    · intro c
      by_cases h : pkgAllowed c
      · rw [if_pos h, if_pos h]
      · rw [if_neg h, if_pos (by decide)]
  · refine sanitize_map_idem _ ?_ ?_ s
    · intro c hc
      by_cases h : (c == '/' || c == '\\') = true
      · simp [h] at hc
      · simpa [h] using hc
    · intro c
      by_cases h : (c == '/' || c == '\\') = true
      · rw [if_pos h, if_neg (by decide)]
      · rw [if_neg h, if_neg h]

/-! ## Lemmas: the temporary file name of writePackageMeta (Claim C3) -/

theorem digitVal_digitChar : ∀ n < 10, digitVal (Nat.digitChar n) = n := by decide

theorem strVal_append (s : Str) (c : Char) :
    strVal (s ++ [c]) = 10 * strVal s + digitVal c := by
  simp [strVal, List.foldl_append]

theorem natToStrAux_val : ∀ fuel n, n < 10 ^ fuel → strVal (natToStrAux fuel n) = n := by
  intro fuel
  induction fuel with
  | zero =>
    intro n h
    interval_cases n
    rfl
  | succ f ih =>
    intro n h
    by_cases h10 : n < 10
    · show strVal (if n < 10 then _ else _) = n
      rw [if_pos h10]
      show 10 * 0 + digitVal (Nat.digitChar n) = n
      rw [digitVal_digitChar n h10]
      omega
    · show strVal (if n < 10 then _ else _) = n
      rw [if_neg h10]
      rw [strVal_append, ih (n / 10) (by rw [pow_succ] at h; omega),
        digitVal_digitChar (n % 10) (Nat.mod_lt n (by omega))]
      omega

theorem strVal_natToStr (n : Nat) : strVal (natToStr n) = n := by
  refine natToStrAux_val (n + 1) n ?_
  calc n < 10 ^ n := Nat.lt_pow_self (by norm_num) n
    _ ≤ 10 ^ (n + 1) := Nat.pow_le_pow_right (by norm_num) (Nat.le_succ n)

theorem natToStr_injective {a b : Nat} (h : natToStr a = natToStr b) : a = b := by
  have ha := strVal_natToStr a
  rw [h, strVal_natToStr] at ha
  omega



/-- Counterexample to claim C3 as stated: two distinct concurrent write
invocations for the same package that observe the same `Date.now()` value
use the same temporary file name, not distinct ones. -/
theorem write_tmp_collision :
    (WriteInvocation.mk (chars "a") (Json.obj []) 1700000000000 ≠
      WriteInvocation.mk (chars "a")
        (Json.obj [(chars "name", Json.str (chars "a"))]) 1700000000000) ∧
    invTmpPath (WriteInvocation.mk (chars "a") (Json.obj []) 1700000000000) =
      invTmpPath (WriteInvocation.mk (chars "a")
        (Json.obj [(chars "name", Json.str (chars "a"))]) 1700000000000) := by
  constructor
  · intro h
    have h2 := congrArg WriteInvocation.meta h
    simp only [Json.obj.injEq] at h2
    exact absurd h2 (by simp)
  · rfl

/-- Claim C3 (amended).  The temporary file name is derived from the
destination path and the observed millisecond timestamp alone: invocations
for the same package observing distinct `Date.now()` values use distinct
temporary file names (two invocations sharing a timestamp collide, see the
counterexample). -/
theorem write_tmp_distinct (pkg : Str) (now1 now2 : Nat) (h : now1 ≠ now2) :
    writeTmpPath pkg now1 ≠ writeTmpPath pkg now2 := by
  intro he
  unfold writeTmpPath at he
  have h1 : chars "meta.json" ++ tmpSuffix now1 = chars "meta.json" ++ tmpSuffix now2 := by
    have := List.append_cancel_left he
    rw [List.cons.injEq] at this
    exact this.1
  have h2 : tmpSuffix now1 = tmpSuffix now2 := List.append_cancel_left h1
  have h3 : natToStr now1 = natToStr now2 := List.append_cancel_left h2
  exact h (natToStr_injective h3)

/-- Witness for `write_tmp_distinct` at concrete inputs. -/
theorem write_tmp_distinct_witness :
    writeTmpPath (chars "a") 3 ≠ writeTmpPath (chars "a") 4 :=
  write_tmp_distinct (chars "a") 3 4 (by decide)

/-! ## Claim C7: readPackageMeta degrades to the absent sentinel -/

/-- Claim C7.  `readPackageMeta` is a total function that never propagates
a failure: a missing descriptor file and a descriptor file whose contents
fail to parse are both reported as the same absent sentinel (`null`), and
a parseable file is reported as the parsed document. -/
theorem read_absorbs_errors (fs : FS) (pkg : Str) :
    (fs.lookupFile (metaPath pkg) = none → readPackageMeta fs pkg = Json.null) ∧
    (∀ c, fs.lookupFile (metaPath pkg) = some c → parseJSON c = none →
      readPackageMeta fs pkg = Json.null) ∧
    (∀ c j, fs.lookupFile (metaPath pkg) = some c → parseJSON c = some j →
      readPackageMeta fs pkg = j) := by
  refine ⟨?_, ?_, ?_⟩
  · intro h
    rw [readPackageMeta, h]
  · intro c hc hp
    rw [readPackageMeta, hc]
    show (match parseJSON c with | none => Json.null | some j => j) = Json.null
    rw [hp]
  · intro c j hc hp
    rw [readPackageMeta, hc]
    show (match parseJSON c with | none => Json.null | some j => j) = j
    rw [hp]


/-- Witness for `read_absorbs_errors`: a never-published package and a
corrupt descriptor file both read back as the `null` sentinel. -/
theorem read_absorbs_errors_witness :
    readPackageMeta emptyFS (chars "a") = Json.null ∧
    readPackageMeta corruptFS (chars "a") = Json.null :=
  ⟨(read_absorbs_errors emptyFS (chars "a")).1 rfl,
    (read_absorbs_errors corruptFS (chars "a")).2.1
      (Content.text (chars "not json")) rfl rfl⟩

/-! ## Claim C8: rejection of non-mapping publish payloads -/

/-- Counterexample to claim C8 as stated: a JSON array is not a mapping,
yet the publish handler accepts it (`typeof [] === "object"` and arrays
are truthy) and mutates the filesystem, persisting the array spread into
an index-keyed object. -/
theorem put_array_not_rejected :
    (putPkgMeta emptyFS (chars "a") (Json.arr [Json.num 7]) 0).2 = PutResult.created ∧
    (putPkgMeta emptyFS (chars "a") (Json.arr [Json.num 7]) 0).1.lookupFile
        (metaPath (chars "a")) =
      some (Content.json (Json.obj [(chars "0", Json.num 7)])) := by
  exact ⟨rfl, rfl⟩

/-- Claim C8 (amended).  A publish payload that is JavaScript-falsy or not
of `typeof` object — `null`, a boolean, a number, or a string — is
rejected with the 400 `invalid_body` error before any filesystem mutation
(the state is returned unchanged); an array payload, although not a
mapping, is not rejected (see the counterexample). -/
theorem put_rejects_nonobject (fs : FS) (pkg : Str) (body : Json) (now : Nat)
    (h : jsTruthy body = false ∨ jsTypeofObject body = false) :
    putPkgMeta fs pkg body now = (fs, PutResult.invalidBody) := by
  rw [putPkgMeta]
  rcases h with h | h <;> simp [h]

/-- Witness for `put_rejects_nonobject`: a string payload is rejected and
the store is untouched. -/
theorem put_rejects_nonobject_witness :
    putPkgMeta emptyFS (chars "a") (Json.str (chars "hi")) 0 =
      (emptyFS, PutResult.invalidBody) :=
  put_rejects_nonobject emptyFS (chars "a") (Json.str (chars "hi")) 0 (Or.inr rfl)

/-! ## Lemmas: association lists and filesystem updates -/

theorem lookupA_setA_self (l : List (Str × Json)) (k : Str) (v : Json) :
    lookupA (setA l k v) k = some v := by
  induction l with
  | nil => simp [setA, lookupA]
  | cons e t ih =>
    by_cases h : e.1 = k
    · simp [setA, h, lookupA]
    · simp [setA, h, lookupA, ih]

theorem lookupA_setA_ne (l : List (Str × Json)) {k k2 : Str} (h : k2 ≠ k) (v : Json) :
    lookupA (setA l k v) k2 = lookupA l k2 := by
  have hk : ¬k = k2 := fun h2 => h h2.symm
  induction l with
  | nil => simp only [setA, lookupA, if_neg hk]
  | cons e t ih =>
    obtain ⟨k1, v1⟩ := e
    by_cases he : k1 = k
    · subst he
      simp only [setA, if_pos rfl, lookupA, if_neg hk]
    · simp only [setA, if_neg he, lookupA, ih]

theorem lookupF_setF_self (l : List (Path × Content)) (p : Path) (c : Content) :
    lookupF (setF l p c) p = some c := by
  induction l with
  | nil => simp [setF, lookupF]
  | cons e t ih =>
    by_cases h : e.1 = p
    · simp [setF, h, lookupF]
    · simp [setF, h, lookupF, ih]

theorem lookupF_setF_ne (l : List (Path × Content)) {p q : Path} (h : q ≠ p) (c : Content) :
    lookupF (setF l p c) q = lookupF l q := by
  have hp : ¬p = q := fun h2 => h h2.symm
  induction l with
  | nil => simp only [setF, lookupF, if_neg hp]
  | cons e t ih =>
    obtain ⟨p1, c1⟩ := e
    by_cases he : p1 = p
    · subst he
      simp only [setF, if_pos rfl, lookupF, if_neg hp]
    · simp only [setF, if_neg he, lookupF, ih]

theorem lookupF_eraseF_ne (l : List (Path × Content)) {p q : Path} (h : q ≠ p) :
    lookupF (eraseF l p) q = lookupF l q := by
  induction l with
  | nil => rfl
  | cons e t ih =>
    obtain ⟨p1, c1⟩ := e
    by_cases he : p1 = p
    · subst he
      have hq : ¬p1 = q := fun h2 => h h2.symm
      simp only [eraseF, if_pos rfl, if_true, lookupF, if_neg hq, ih]
    · simp only [eraseF, if_neg he, lookupF, ih]

theorem eraseF_setF_self (l : List (Path × Content)) (p : Path) (c : Content) :
    eraseF (setF l p c) p = eraseF l p := by
  induction l with
  | nil => simp only [setF, eraseF, if_pos rfl, if_true]
  | cons e t ih =>
    obtain ⟨p1, c1⟩ := e
    by_cases he : p1 = p
    · subst he
      simp only [setF, if_pos rfl, if_true, eraseF]
    · simp only [setF, if_neg he, eraseF, ih]

theorem insertDir_files (fs : FS) (p : Path) : (fs.insertDir p).files = fs.files := by
  rw [FS.insertDir]
  split <;> rfl

theorem foldl_insertDir_files (ps : List Path) (fs : FS) :
    (ps.foldl FS.insertDir fs).files = fs.files := by
  induction ps generalizing fs with
  | nil => rfl
  | cons p t ih => rw [List.foldl_cons, ih, insertDir_files]

theorem mkdirRec_files (fs : FS) (p : Path) : (fs.mkdirRec p).files = fs.files :=
  foldl_insertDir_files (pathPrefixes p) fs

theorem ensurePackageDir_files (fs : FS) (pkg : Str) :
    (ensurePackageDir fs pkg).1.files = fs.files := by
  rw [ensurePackageDir, mkdirRec_files, mkdirRec_files]

/-- Effect of `writePackageMeta` on the file map: the temporary file is
gone and the destination holds the serialised shallow copy. -/
theorem writePackageMeta_files (fs : FS) (pkg : Str) (meta : Json) (now : Nat) :
    (writePackageMeta fs pkg meta now).1.files =
      setF (eraseF fs.files (writeTmpPath pkg now)) (metaPath pkg)
        (Content.json (objAssign meta)) := by
  show (FS.rename (FS.writeFile (ensurePackageDir fs pkg).1 (writeTmpPath pkg now)
      (Content.json (objAssign meta))) (writeTmpPath pkg now)
        ((ensurePackageDir fs pkg).2 ++ [chars "meta.json"])).files =
    _
  have hfiles : (FS.writeFile (ensurePackageDir fs pkg).1 (writeTmpPath pkg now)
      (Content.json (objAssign meta))).files =
      setF fs.files (writeTmpPath pkg now) (Content.json (objAssign meta)) := by
    rw [FS.writeFile, ensurePackageDir_files]
  rw [FS.rename, hfiles, lookupF_setF_self]
  show setF (eraseF (setF fs.files (writeTmpPath pkg now) (Content.json (objAssign meta)))
      (writeTmpPath pkg now)) (metaPath pkg) (Content.json (objAssign meta)) = _
  rw [eraseF_setF_self]

theorem writePackageMeta_dirs (fs : FS) (pkg : Str) (meta : Json) (now : Nat) :
    (writePackageMeta fs pkg meta now).1.dirs = (ensurePackageDir fs pkg).1.dirs := by
  show (FS.rename (FS.writeFile (ensurePackageDir fs pkg).1 (writeTmpPath pkg now)
      (Content.json (objAssign meta))) (writeTmpPath pkg now)
        ((ensurePackageDir fs pkg).2 ++ [chars "meta.json"])).dirs = _
  rw [FS.rename]
  split <;> rfl

/-- The temporary path and the descriptor path differ (the temporary name
strictly extends `meta.json`). -/
theorem writeTmpPath_ne_metaPath (pkg : Str) (now : Nat) :
    writeTmpPath pkg now ≠ metaPath pkg := by
  intro h
  have h2 := List.append_cancel_left (h.trans rfl : pkgDirPath pkg ++ _ = pkgDirPath pkg ++ _)
  rw [List.cons.injEq] at h2
  have h3 := congrArg List.length h2.1
  rw [List.length_append] at h3
  have h4 : (tmpSuffix now).length ≠ 0 := by
    rw [tmpSuffix, List.length_append]
    simp [chars]
  omega


theorem objAssign_of_isObj {D : Json} (h : isObj D = true) : objAssign D = D := by
  cases D <;> simp [isObj] at h ⊢
  rfl

/-- Claim C4.  Round-trip: writing a structured document (a mapping) and
reading it back returns a document equal to the original, for every
package name, store state and observed timestamp. -/
theorem write_read_roundtrip (fs : FS) (pkg : Str) (D : Json) (now : Nat)
    (h : isObj D = true) :
    readPackageMeta (writePackageMeta fs pkg D now).1 pkg = D := by
  rw [readPackageMeta, FS.lookupFile, writePackageMeta_files, lookupF_setF_self]
  show (match parseJSON (Content.json (objAssign D)) with
    | none => Json.null | some j => j) = D
  rw [parseJSON]
  exact objAssign_of_isObj h

/-- Witness for `write_read_roundtrip` at concrete inputs. -/
theorem write_read_roundtrip_witness :
    readPackageMeta
      (writePackageMeta emptyFS (chars "left-pad")
        (Json.obj [(chars "name", Json.str (chars "left-pad"))]) 42).1
      (chars "left-pad") =
    Json.obj [(chars "name", Json.str (chars "left-pad"))] :=
  write_read_roundtrip emptyFS (chars "left-pad")
    (Json.obj [(chars "name", Json.str (chars "left-pad"))]) 42 rfl

/-! ## Claim C2: listing after publishing a scoped package -/

theorem insertDir_dirs (fs : FS) (p : Path) :
    (fs.insertDir p).dirs = if p ∈ fs.dirs then fs.dirs else fs.dirs ++ [p] := by
  rw [FS.insertDir]
  split <;> simp_all

theorem foldl_insertDir_dirs (ps : List Path) (fs : FS) :
    (ps.foldl FS.insertDir fs).dirs =
      ps.foldl (fun ds p => if p ∈ ds then ds else ds ++ [p]) fs.dirs := by
  induction ps generalizing fs with
  | nil => rfl
  | cons p t ih =>
    rw [List.foldl_cons, List.foldl_cons, ih, insertDir_dirs]

theorem ensurePackageDir_dirs (fs : FS) (pkg : Str) :
    (ensurePackageDir fs pkg).1.dirs =
      (pathPrefixes (pkgDirPath pkg ++ [chars "tarballs"])).foldl
        (fun ds p => if p ∈ ds then ds else ds ++ [p])
        ((pathPrefixes (pkgDirPath pkg)).foldl
          (fun ds p => if p ∈ ds then ds else ds ++ [p]) fs.dirs) := by
  show ((fs.mkdirRec (pkgDirPath pkg)).mkdirRec (pkgDirPath pkg ++ [chars "tarballs"])).dirs = _
  rw [FS.mkdirRec, FS.mkdirRec, foldl_insertDir_dirs, foldl_insertDir_dirs]


theorem publishTwo_files (Da Db : List (Str × Json)) (t1 t2 : Nat) :
    (publishTwo Da Db t1 t2).files =
      [(metaPath (chars "a"), Content.json (Json.obj Da)),
       (metaPath (chars "@scope/b"), Content.json (Json.obj Db))] := by
  have hA : (writePackageMeta emptyFS (chars "a") (Json.obj Da) t1).1.files =
      [(metaPath (chars "a"), Content.json (Json.obj Da))] := by
    rw [writePackageMeta_files]
    rfl
  rw [publishTwo, writePackageMeta_files, hA]
  rfl

theorem publishTwo_dirs (Da Db : List (Str × Json)) (t1 t2 : Nat) :
    (publishTwo Da Db t1 t2).dirs =
      [[chars "packages"], [chars "packages", chars "a"],
       [chars "packages", chars "a", chars "tarballs"],
       [chars "packages", chars "@scope"], [chars "packages", chars "@scope", chars "b"],
       [chars "packages", chars "@scope", chars "b", chars "tarballs"]] := by
  have hA : (writePackageMeta emptyFS (chars "a") (Json.obj Da) t1).1.dirs =
      [[chars "packages"], [chars "packages", chars "a"],
       [chars "packages", chars "a", chars "tarballs"]] := by
    rw [writePackageMeta_dirs, ensurePackageDir_dirs]
    rfl
  rw [publishTwo, writePackageMeta_dirs, ensurePackageDir_dirs, hA]
  rfl

/-- Claim C2 (amended).  After publishing descriptors for `a` and
`@scope/b`, `listAll` enumerates only the immediate children of the
packages root: it maps `a` to its stored descriptor, and the scoped
package surfaces only as its scope directory `@scope`, bound to a
synthesized empty descriptor; the key `@scope/b` is absent from the
mapping even though its descriptor is on disk. -/
theorem listAll_after_publish (Da Db : List (Str × Json)) (t1 t2 : Nat) :
    listAllPackages (publishTwo Da Db t1 t2) =
      [(chars "a", Json.obj Da), (chars "@scope", emptyDescriptor (chars "@scope"))] ∧
    lookupA (listAllPackages (publishTwo Da Db t1 t2)) (chars "@scope/b") = none ∧
    readPackageMeta (publishTwo Da Db t1 t2) (chars "@scope/b") = Json.obj Db := by
  have hd := publishTwo_dirs Da Db t1 t2
  have hf := publishTwo_files Da Db t1 t2
  cases hfs : publishTwo Da Db t1 t2 with
  | mk d f =>
    rw [hfs] at hd hf
    have hd2 : d =
        [[chars "packages"], [chars "packages", chars "a"],
         [chars "packages", chars "a", chars "tarballs"],
         [chars "packages", chars "@scope"], [chars "packages", chars "@scope", chars "b"],
         [chars "packages", chars "@scope", chars "b", chars "tarballs"]] := hd
    have hf2 : f =
        [(metaPath (chars "a"), Content.json (Json.obj Da)),
         (metaPath (chars "@scope/b"), Content.json (Json.obj Db))] := hf
    subst hd2
    subst hf2
    exact ⟨rfl, rfl, rfl⟩

/-- Counterexample to claim C2 as stated: with descriptors published for
both `a` and `@scope/b`, the mapping returned by `listAll` has no key
`@scope/b` at all (its descriptor, although on disk and readable, is not
listed), so the claimed completeness fails for the scoped package. -/
theorem listAll_missing_scoped :
    lookupA
      (listAllPackages (publishTwo
        [(chars "name", Json.str (chars "a"))]
        [(chars "name", Json.str (chars "@scope/b"))] 1 2))
      (chars "@scope/b") = none ∧
    readPackageMeta
      (publishTwo [(chars "name", Json.str (chars "a"))]
        [(chars "name", Json.str (chars "@scope/b"))] 1 2)
      (chars "@scope/b") =
      Json.obj [(chars "name", Json.str (chars "@scope/b"))] := by
  exact ⟨rfl, rfl⟩

/-! ## Claims C5 and C9: the upload descriptor mutation -/






theorem jsSet_obj (l : List (Str × Json)) (k : Str) (v : Json) :
    jsSet (Json.obj l) k v = some (Json.obj (setA l k v)) := rfl

theorem jsSet_some {x v y : Json} {k : Str} (h : jsSet x k v = some y) :
    ∃ l, x = Json.obj l ∧ y = Json.obj (setA l k v) := by
  cases x with
  | obj l =>
    refine ⟨l, rfl, ?_⟩
    injection h with h2
    exact h2.symm
  | null => exact absurd h (by simp [jsSet])
  | bool b => exact absurd h (by simp [jsSet])
  | num n => exact absurd h (by simp [jsSet])
  | str s => exact absurd h (by simp [jsSet])
  | arr es => exact absurd h (by simp [jsSet])

/-- Version resolution reads only `dist-tags`, so overwriting the
`versions` field does not change it. -/
theorem resolveVersion_setA_versions (m0 : List (Str × Json)) (x : Json) :
    resolveVersion (Json.obj (setA m0 (chars "versions") x)) =
      resolveVersion (Json.obj m0) := by
  have hg : jsGet (Json.obj (setA m0 (chars "versions") x)) (chars "dist-tags") =
      jsGet (Json.obj m0) (chars "dist-tags") :=
    lookupA_setA_ne m0 (by decide) x
  rw [resolveVersion, resolveVersion, hg]

/-- Inversion of a successful run of the descriptor mutation: the three
objects read along the update path (each defaulted to `{}` when absent or
falsy) must be plain objects, and the persisted document is the original
with the resolved version's `dist.tarball` path rebuilt. -/
theorem uploadUpdateMeta_shape (m0 : List (Str × Json)) (url : Str) (meta4 : Json)
    (h : uploadUpdateMeta (Json.obj m0) url = some meta4) :
    ∃ w r d,
      readVersions (Json.obj m0) = Json.obj w ∧
      readVersionRec (Json.obj m0) (resolveVersion (Json.obj m0)) = Json.obj r ∧
      readDistObj (Json.obj m0) (resolveVersion (Json.obj m0)) = Json.obj d ∧
      meta4 = Json.obj (setA (setA m0 (chars "versions") (Json.obj w)) (chars "versions")
        (Json.obj (setA (setA w (resolveVersion (Json.obj m0)) (Json.obj r))
          (resolveVersion (Json.obj m0))
          (Json.obj (setA (setA r (chars "dist") (Json.obj d)) (chars "dist")
            (Json.obj (setA d (chars "tarball") (Json.str url)))))))) := by
  rw [uploadUpdateMeta] at h
  simp only [jsSet_obj] at h
  rw [resolveVersion_setA_versions] at h
  cases hs2 : jsSet (truthyOr (jsGet (Json.obj m0) (chars "versions")) (Json.obj []))
      (resolveVersion (Json.obj m0))
      (truthyOr
        (jsGet (truthyOr (jsGet (Json.obj m0) (chars "versions")) (Json.obj []))
          (resolveVersion (Json.obj m0)))
        (Json.obj [])) with
  | none =>
    rw [hs2] at h
    exact absurd h (by simp)
  | some versions2 =>
    rw [hs2] at h
    dsimp only at h
    obtain ⟨w, hw, hv2⟩ := jsSet_some hs2
    cases hs3 : jsSet
        (truthyOr
          (jsGet (truthyOr (jsGet (Json.obj m0) (chars "versions")) (Json.obj []))
            (resolveVersion (Json.obj m0)))
          (Json.obj []))
        (chars "dist")
        (truthyOr
          (jsGet
            (truthyOr
              (jsGet (truthyOr (jsGet (Json.obj m0) (chars "versions")) (Json.obj []))
                (resolveVersion (Json.obj m0)))
              (Json.obj []))
            (chars "dist"))
          (Json.obj [])) with
    | none =>
      rw [hs3] at h
      exact absurd h (by simp)
    | some verRec2 =>
      rw [hs3] at h
      dsimp only at h
      obtain ⟨r, hr, hvr2⟩ := jsSet_some hs3
      cases hs4 : jsSet
          (truthyOr
            (jsGet
              (truthyOr
                (jsGet (truthyOr (jsGet (Json.obj m0) (chars "versions")) (Json.obj []))
                  (resolveVersion (Json.obj m0)))
                (Json.obj []))
              (chars "dist"))
            (Json.obj []))
          (chars "tarball") (Json.str url) with
      | none =>
        rw [hs4] at h
        exact absurd h (by simp)
      | some dist2 =>
        rw [hs4] at h
        dsimp only at h
        obtain ⟨d, hd, hd2⟩ := jsSet_some hs4
        subst hvr2
        subst hv2
        simp only [jsSet_obj] at h
        injection h with h5
        refine ⟨w, r, d, hw, hr, hd, ?_⟩
        rw [← h5, hd2, hd, hr, hw]

theorem jsGet_obj (l : List (Str × Json)) (k : Str) :
    jsGet (Json.obj l) k = lookupA l k := rfl

theorem jsGetPath_cons (j : Json) (k : Str) (ks : List Str) :
    jsGetPath j (k :: ks) =
      match jsGet j k with
      | some x => jsGetPath x ks
      | none => none := rfl

theorem jsGetPath_single (j : Json) (k : Str) : jsGetPath j [k] = jsGet j k := by
  rw [jsGetPath_cons]
  cases jsGet j k <;> rfl

theorem jsGet2_eq_path (j : Json) (k1 k2 : Str) : jsGet2 j k1 k2 = jsGetPath j [k1, k2] := by
  rw [jsGet2, jsGetPath_cons]
  cases jsGet j k1 with
  | none => rfl
  | some x =>
    show jsGet x k2 = jsGetPath x [k2]
    rw [jsGetPath_single]

/-- Frame at the top level: the mutation rewrites only the `versions`
field of the descriptor. -/
theorem upd_frame_top (m0 : List (Str × Json)) (url : Str) (meta4 : Json)
    (h : uploadUpdateMeta (Json.obj m0) url = some meta4) :
    ∀ k, k ≠ chars "versions" → jsGet meta4 k = jsGet (Json.obj m0) k := by
  obtain ⟨w, r, d, hw, hr, hd, hm⟩ := uploadUpdateMeta_shape m0 url meta4 h
  subst hm
  intro k hk
  rw [jsGet_obj, jsGet_obj, lookupA_setA_ne _ hk, lookupA_setA_ne _ hk]

/-- Frame inside `versions`: entries other than the resolved key keep the
value they had in the versions object read by the upload. -/
theorem upd_frame_versions (m0 : List (Str × Json)) (url : Str) (meta4 : Json)
    (h : uploadUpdateMeta (Json.obj m0) url = some meta4) :
    ∀ ver, ver ≠ resolveVersion (Json.obj m0) →
      jsGet2 meta4 (chars "versions") ver = jsGet (readVersions (Json.obj m0)) ver := by
  obtain ⟨w, r, d, hw, hr, hd, hm⟩ := uploadUpdateMeta_shape m0 url meta4 h
  subst hm
  intro ver hver
  rw [jsGet2, jsGet_obj, lookupA_setA_self]
  dsimp only
  rw [jsGet_obj, lookupA_setA_ne _ hver, lookupA_setA_ne _ hver, hw, jsGet_obj]

/-- Frame inside the resolved version record: fields other than `dist`
keep the value they had in the record read by the upload. -/
theorem upd_frame_record (m0 : List (Str × Json)) (url : Str) (meta4 : Json)
    (h : uploadUpdateMeta (Json.obj m0) url = some meta4) :
    ∀ f, f ≠ chars "dist" →
      jsGetPath meta4 [chars "versions", resolveVersion (Json.obj m0), f] =
        jsGet (readVersionRec (Json.obj m0) (resolveVersion (Json.obj m0))) f := by
  obtain ⟨w, r, d, hw, hr, hd, hm⟩ := uploadUpdateMeta_shape m0 url meta4 h
  subst hm
  intro f hf
  rw [jsGetPath_cons, jsGet_obj, lookupA_setA_self]
  show jsGetPath _ [resolveVersion (Json.obj m0), f] = _
  rw [jsGetPath_cons, jsGet_obj, lookupA_setA_self]
  show jsGetPath _ [f] = _
  rw [jsGetPath_single, jsGet_obj, lookupA_setA_ne _ hf, lookupA_setA_ne _ hf]
  rw [hr, jsGet_obj]

/-- Frame inside the resolved record's `dist` object: fields other than
`tarball` keep the value they had in the dist object read by the upload. -/
theorem upd_frame_dist (m0 : List (Str × Json)) (url : Str) (meta4 : Json)
    (h : uploadUpdateMeta (Json.obj m0) url = some meta4) :
    ∀ g, g ≠ chars "tarball" →
      jsGetPath meta4
          [chars "versions", resolveVersion (Json.obj m0), chars "dist", g] =
        jsGet (readDistObj (Json.obj m0) (resolveVersion (Json.obj m0))) g := by
  obtain ⟨w, r, d, hw, hr, hd, hm⟩ := uploadUpdateMeta_shape m0 url meta4 h
  subst hm
  intro g hg
  rw [jsGetPath_cons, jsGet_obj, lookupA_setA_self]
  show jsGetPath _ [resolveVersion (Json.obj m0), chars "dist", g] = _
  rw [jsGetPath_cons, jsGet_obj, lookupA_setA_self]
  show jsGetPath _ [chars "dist", g] = _
  rw [jsGetPath_cons, jsGet_obj, lookupA_setA_self]
  show jsGetPath _ [g] = _
  rw [jsGetPath_single, jsGet_obj, lookupA_setA_ne _ hg]
  rw [hd, jsGet_obj]

/-- The mutation binds the canonical locator at
`versions[resolved].dist.tarball`. -/
theorem upd_tarball (m0 : List (Str × Json)) (url : Str) (meta4 : Json)
    (h : uploadUpdateMeta (Json.obj m0) url = some meta4) :
    jsGetPath meta4
        [chars "versions", resolveVersion (Json.obj m0), chars "dist", chars "tarball"] =
      some (Json.str url) := by
  obtain ⟨w, r, d, hw, hr, hd, hm⟩ := uploadUpdateMeta_shape m0 url meta4 h
  subst hm
  rw [jsGetPath_cons, jsGet_obj, lookupA_setA_self]
  show jsGetPath _ [resolveVersion (Json.obj m0), chars "dist", chars "tarball"] = _
  rw [jsGetPath_cons, jsGet_obj, lookupA_setA_self]
  show jsGetPath _ [chars "dist", chars "tarball"] = _
  rw [jsGetPath_cons, jsGet_obj, lookupA_setA_self]
  show jsGetPath _ [chars "tarball"] = _
  rw [jsGetPath_single, jsGet_obj, lookupA_setA_self]

/-- When the descriptor has a truthy `dist-tags.latest` entry, the
resolution picks it (coerced to a property key). -/
theorem resolveVersion_of_latest (m0 : List (Str × Json)) {v : Json}
    (hv : jsGet2 (Json.obj m0) (chars "dist-tags") (chars "latest") = some v)
    (ht : jsTruthy v = true) :
    resolveVersion (Json.obj m0) = jsPropKey v := by
  rw [jsGet2] at hv
  cases hdt : jsGet (Json.obj m0) (chars "dist-tags") with
  | none =>
    rw [hdt] at hv
    exact absurd hv (by simp)
  | some dt =>
    rw [hdt] at hv
    dsimp only at hv
    have htr : jsTruthy dt = true := by
      cases dt with
      | obj l => rfl
      | arr es =>rfl
      | null => exact absurd hv (by simp [jsGet])
      | bool b => exact absurd hv (by simp [jsGet])
      | num n => exact absurd hv (by simp [jsGet])
      | str s =>
        exact absurd hv (by rw [show jsGet (Json.str s) (chars "latest") = none from rfl]; simp)
    rw [resolveVersion, hdt]
    dsimp only
    rw [if_pos htr, hv]
    dsimp only
    rw [if_pos ht]

/-- When every `dist-tags.latest` read is falsy (the entry is absent, the
`dist-tags` value is not an object, or the entry itself is falsy such as
the empty string), the resolution falls back to `0.0.0`. -/
theorem resolveVersion_fallback (m0 : List (Str × Json))
    (hv : ∀ v, jsGet2 (Json.obj m0) (chars "dist-tags") (chars "latest") = some v →
      jsTruthy v = false) :
    resolveVersion (Json.obj m0) = chars "0.0.0" := by
  rw [resolveVersion]
  cases hdt : jsGet (Json.obj m0) (chars "dist-tags") with
  | none => rfl
  | some dt =>
    dsimp only
    by_cases htr : jsTruthy dt = true
    · rw [if_pos htr]
      cases hl : jsGet dt (chars "latest") with
      | none => rfl
      | some l =>
        dsimp only
        have hfalse : jsTruthy l = false := by
          refine hv l ?_
          rw [jsGet2, hdt]
          exact hl
        rw [if_neg (by rw [hfalse]; exact Bool.false_ne_true)]
    · rw [if_neg htr]

/-- Claim C5 (amended).  The target version key comes from
`dist-tags.latest` only when that entry is truthy: a truthy entry `v`
directs the tarball locator to `versions[v].dist.tarball` and leaves the
`0.0.0` entry exactly as it was read (in particular it does not create
one); when every `dist-tags.latest` read is falsy — entry absent, or
falsy such as the empty string — the locator goes to
`versions["0.0.0"].dist.tarball`. -/
theorem latest_tag_resolution (m0 : List (Str × Json)) (url : Str) (meta4 : Json)
    (h : uploadUpdateMeta (Json.obj m0) url = some meta4) :
    (∀ v, jsGet2 (Json.obj m0) (chars "dist-tags") (chars "latest") = some v →
      jsTruthy v = true →
      jsGetPath meta4 [chars "versions", jsPropKey v, chars "dist", chars "tarball"] =
        some (Json.str url) ∧
      (jsPropKey v ≠ chars "0.0.0" →
        jsGet2 meta4 (chars "versions") (chars "0.0.0") =
          jsGet (readVersions (Json.obj m0)) (chars "0.0.0"))) ∧
    ((∀ v, jsGet2 (Json.obj m0) (chars "dist-tags") (chars "latest") = some v →
        jsTruthy v = false) →
      jsGetPath meta4 [chars "versions", chars "0.0.0", chars "dist", chars "tarball"] =
        some (Json.str url)) := by
  constructor
  · intro v hv ht
    have hrv := resolveVersion_of_latest m0 hv ht
    constructor
    · rw [← hrv]
      exact upd_tarball m0 url meta4 h
    · intro hne
      refine upd_frame_versions m0 url meta4 h (chars "0.0.0") ?_
      rw [hrv]
      exact fun he => hne he.symm
  · intro hv
    have hrv := resolveVersion_fallback m0 hv
    rw [← hrv]
    exact upd_tarball m0 url meta4 h


/-- Counterexample to claim C5 as stated: this descriptor does have a
`dist-tags.latest` entry (the empty string), yet the upload does not
update `versions[""].dist.tarball` — it creates and updates the `0.0.0`
entry instead, because the code tests the entry for truthiness, not for
presence. -/
theorem latest_empty_counterexample :
    jsGet2 (Json.obj metaEmptyLatest) (chars "dist-tags") (chars "latest") =
      some (Json.str []) ∧
    (uploadUpdateMeta (Json.obj metaEmptyLatest) (chars "u")).isSome = true ∧
    jsGetPath ((uploadUpdateMeta (Json.obj metaEmptyLatest) (chars "u")).getD Json.null)
      [chars "versions", [], chars "dist", chars "tarball"] = none ∧
    jsGetPath ((uploadUpdateMeta (Json.obj metaEmptyLatest) (chars "u")).getD Json.null)
      [chars "versions", chars "0.0.0", chars "dist", chars "tarball"] =
      some (Json.str (chars "u")) := by
  exact ⟨rfl, rfl, rfl, rfl⟩



theorem latest_tag_resolution_witness :
    jsGetPath metaLatest21Result
      [chars "versions", chars "2.1.0", chars "dist", chars "tarball"] =
      some (Json.str (chars "u")) ∧
    jsGet2 metaLatest21Result (chars "versions") (chars "0.0.0") = none := by
  have h : uploadUpdateMeta (Json.obj metaLatest21) (chars "u") =
      some metaLatest21Result := rfl
  obtain ⟨h1, h2⟩ :=
    (latest_tag_resolution metaLatest21 (chars "u") metaLatest21Result h).1
      (Json.str (chars "2.1.0")) rfl rfl
  exact ⟨h1, (h2 (by decide)).trans rfl⟩

/-- Claim C9.  Frame property of the upload descriptor mutation: whenever
the mutation succeeds, it changes only `versions[resolved].dist.tarball`
(creating the entries along that path from `{}` when the read value was
absent or falsy); the descriptor's other fields (its name, its dist-tags),
every other version entry, every other field of the resolved version
record, and every other field of its dist object keep exactly the values
read by the upload. -/
theorem upload_frame (m0 : List (Str × Json)) (url : Str) (meta4 : Json)
    (h : uploadUpdateMeta (Json.obj m0) url = some meta4) :
    (∀ k, k ≠ chars "versions" → jsGet meta4 k = jsGet (Json.obj m0) k) ∧
    (∀ ver, ver ≠ resolveVersion (Json.obj m0) →
      jsGet2 meta4 (chars "versions") ver = jsGet (readVersions (Json.obj m0)) ver) ∧
    (∀ f, f ≠ chars "dist" →
      jsGetPath meta4 [chars "versions", resolveVersion (Json.obj m0), f] =
        jsGet (readVersionRec (Json.obj m0) (resolveVersion (Json.obj m0))) f) ∧
    (∀ g, g ≠ chars "tarball" →
      jsGetPath meta4
          [chars "versions", resolveVersion (Json.obj m0), chars "dist", g] =
        jsGet (readDistObj (Json.obj m0) (resolveVersion (Json.obj m0))) g) ∧
    jsGetPath meta4
        [chars "versions", resolveVersion (Json.obj m0), chars "dist", chars "tarball"] =
      some (Json.str url) :=
  ⟨upd_frame_top m0 url meta4 h, upd_frame_versions m0 url meta4 h,
    upd_frame_record m0 url meta4 h, upd_frame_dist m0 url meta4 h,
    upd_tarball m0 url meta4 h⟩



theorem upload_frame_witness :
    jsGet metaFrameSampleResult (chars "name") = some (Json.str (chars "x")) ∧
    jsGet2 metaFrameSampleResult (chars "versions") (chars "1.0.0") =
      some (Json.obj []) ∧
    jsGetPath metaFrameSampleResult [chars "versions", chars "2.1.0", chars "extra"] =
      some (Json.num 1) ∧
    jsGetPath metaFrameSampleResult
        [chars "versions", chars "2.1.0", chars "dist", chars "shasum"] =
      some (Json.str (chars "s")) := by
  have h : uploadUpdateMeta (Json.obj metaFrameSample) (chars "u") =
      some metaFrameSampleResult := rfl
  obtain ⟨f1, f2, f3, f4, f5⟩ := upload_frame metaFrameSample (chars "u") metaFrameSampleResult h
  refine ⟨?_, ?_, ?_, ?_⟩
  · exact (f1 (chars "name") (by decide)).trans rfl
  · exact (f2 (chars "1.0.0") (by decide)).trans rfl
  · exact (f3 (chars "extra") (by decide)).trans rfl
  · exact (f4 (chars "shasum") (by decide)).trans rfl

/-! ## Claim C6: an upload binds the locator and stores the bytes -/

/-- The artifact path is the `tarballs` directory extended by the
sanitized name, or the directory itself when the name sanitizes away. -/
theorem tarballPath_cases (pkg filename : Str) :
    tarballPath pkg filename =
      pkgDirPath pkg ++ [chars "tarballs", sanitizeFilename filename] ∨
    tarballPath pkg filename = pkgDirPath pkg ++ [chars "tarballs"] := by
  rw [tarballPath, normFrom, List.foldl_cons, List.foldl_cons, List.foldl_nil]
  have hA : (if chars "tarballs" = [] then pkgDirPath pkg
      else if chars "tarballs" = ['.'] then pkgDirPath pkg
      else if chars "tarballs" = ['.', '.'] then List.dropLast (pkgDirPath pkg)
      else pkgDirPath pkg ++ [chars "tarballs"]) = pkgDirPath pkg ++ [chars "tarballs"] := by
    rw [if_neg (by decide), if_neg (by decide), if_neg (by decide)]
  rw [hA]
  by_cases h1 : sanitizeFilename filename = []
  · right
    rw [if_pos h1]
  · rw [if_neg h1]
    by_cases h2 : sanitizeFilename filename = ['.']
    · right
      rw [if_pos h2]
    · have h3 : sanitizeFilename filename ≠ ['.', '.'] := by
        intro he
        have hnd := sanitizeFilename_noDotDot filename
        rw [he] at hnd
        exact absurd hnd (by decide)
      rw [if_neg h2, if_neg h3]
      left
      rw [List.append_assoc]
      rfl

theorem metaPath_ne_tarballPath (pkg filename : Str) :
    metaPath pkg ≠ tarballPath pkg filename := by
  rcases tarballPath_cases pkg filename with h | h <;> rw [h, metaPath] <;> intro he
  · have hlen := congrArg List.length (List.append_cancel_left he)
    simp at hlen
  · have h2 := List.append_cancel_left he
    rw [List.cons.injEq] at h2
    exact absurd h2.1 (by decide)

theorem writeTmpPath_ne_tarballPath (pkg filename : Str) (now : Nat) :
    writeTmpPath pkg now ≠ tarballPath pkg filename := by
  rcases tarballPath_cases pkg filename with h | h <;> rw [h, writeTmpPath] <;> intro he
  · have hlen := congrArg List.length (List.append_cancel_left he)
    simp at hlen
  · have h2 := List.append_cancel_left he
    rw [List.cons.injEq] at h2
    have hlen := congrArg List.length h2.1
    rw [List.length_append] at hlen
    rw [show (chars "meta.json").length = 9 from rfl,
      show (chars "tarballs").length = 8 from rfl] at hlen
    omega

theorem saveTarball_files (fs : FS) (pkg filename : Str) (buf : List Nat) :
    (saveTarball fs pkg filename buf).1.files =
      setF fs.files (tarballPath pkg filename) (Content.bytes buf) := by
  show (FS.writeFile (ensurePackageDir fs pkg).1 (tarballPath pkg filename)
      (Content.bytes buf)).files = _
  rw [FS.writeFile, ensurePackageDir_files]

/-- Reading back the descriptor right after a write yields the shallow
copy that was serialised. -/
theorem readPackageMeta_write (fs : FS) (pkg : Str) (meta : Json) (now : Nat) :
    readPackageMeta (writePackageMeta fs pkg meta now).1 pkg = objAssign meta := by
  rw [readPackageMeta, FS.lookupFile, writePackageMeta_files, lookupF_setF_self]
  rfl

/-- A write leaves every other file untouched. -/
theorem lookupF_write_other (fs : FS) (pkg : Str) (meta : Json) (now : Nat) {q : Path}
    (h1 : q ≠ metaPath pkg) (h2 : q ≠ writeTmpPath pkg now) :
    lookupF (writePackageMeta fs pkg meta now).1.files q = lookupF fs.files q := by
  rw [writePackageMeta_files, lookupF_setF_ne _ h1, lookupF_eraseF_ne _ h2]

/-- The storage preparation of an upload (ensure + saveTarball) does not
touch the descriptor file. -/
theorem readPackageMeta_after_prep (fs : FS) (pkg filename : Str) (body : List Nat) :
    readPackageMeta (saveTarball (ensurePackageDir fs pkg).1 pkg filename body).1 pkg =
      readPackageMeta fs pkg := by
  rw [readPackageMeta, readPackageMeta, FS.lookupFile, FS.lookupFile, saveTarball_files,
    ensurePackageDir_files, lookupF_setF_ne _ (metaPath_ne_tarballPath pkg filename)]

/-- Claim C6.  Upload binds the version on an absent or empty descriptor:
the upload succeeds, the persisted descriptor's
`versions["0.0.0"].dist.tarball` is exactly the canonical locator built
from the request scheme, host, url-escaped package name and url-escaped
filename, and the stored artifact bytes read back exactly as uploaded. -/
theorem upload_binds_version (fs : FS) (pkg filename : Str) (body : List Nat)
    (protocol host : Str) (now : Nat)
    (hbody : body ≠ [])
    (hmeta : readPackageMeta fs pkg = Json.null ∨ readPackageMeta fs pkg = Json.obj []) :
    (uploadTarball fs pkg filename body protocol host now).2 = UploadResult.ok ∧
    jsGetPath
        (readPackageMeta (uploadTarball fs pkg filename body protocol host now).1 pkg)
        [chars "versions", chars "0.0.0", chars "dist", chars "tarball"] =
      some (Json.str (tarballUrl protocol host pkg filename)) ∧
    getTarballBytes (uploadTarball fs pkg filename body protocol host now).1 pkg filename =
      some (Content.bytes body) := by
  cases body with
  | nil => exact absurd rfl hbody
  | cons b bs =>
    have hread := readPackageMeta_after_prep fs pkg filename (b :: bs)
    have hmain : ∀ M : Json,
        uploadTarball fs pkg filename (b :: bs) protocol host now =
          ((writePackageMeta
            (saveTarball (ensurePackageDir fs pkg).1 pkg filename (b :: bs)).1
            pkg M now).1, UploadResult.ok) →
        isObj M = true →
        jsGetPath (objAssign M)
            [chars "versions", chars "0.0.0", chars "dist", chars "tarball"] =
          some (Json.str (tarballUrl protocol host pkg filename)) →
        (uploadTarball fs pkg filename (b :: bs) protocol host now).2 = UploadResult.ok ∧
        jsGetPath
            (readPackageMeta (uploadTarball fs pkg filename (b :: bs) protocol host now).1 pkg)
            [chars "versions", chars "0.0.0", chars "dist", chars "tarball"] =
          some (Json.str (tarballUrl protocol host pkg filename)) ∧
        getTarballBytes (uploadTarball fs pkg filename (b :: bs) protocol host now).1
            pkg filename =
          some (Content.bytes (b :: bs)) := by
      intro M hrun hMobj hMpath
      refine ⟨by rw [hrun], ?_, ?_⟩
      · rw [hrun]
        show jsGetPath (readPackageMeta (writePackageMeta _ pkg M now).1 pkg) _ = _
        rw [readPackageMeta_write]
        exact hMpath
      · rw [hrun]
        show getTarballBytes (writePackageMeta _ pkg M now).1 pkg filename = _
        have hl : lookupF (writePackageMeta
            (saveTarball (ensurePackageDir fs pkg).1 pkg filename (b :: bs)).1
            pkg M now).1.files (tarballPath pkg filename) =
            some (Content.bytes (b :: bs)) := by
          rw [lookupF_write_other _ pkg M now
              (fun he => metaPath_ne_tarballPath pkg filename he.symm)
              (fun he => writeTmpPath_ne_tarballPath pkg filename now he.symm),
            saveTarball_files, lookupF_setF_self]
        rw [getTarballBytes, getTarballPath]
        rw [if_pos (by rw [FS.accessOk, hl]; rfl)]
        show FS.lookupFile _ (tarballPath pkg filename) = _
        rw [FS.lookupFile, hl]
    rcases hmeta with hm | hm
    · refine hmain
        (Json.obj [(chars "name", Json.str pkg),
          (chars "versions", Json.obj [(chars "0.0.0", Json.obj [(chars "dist",
            Json.obj [(chars "tarball",
              Json.str (tarballUrl protocol host pkg filename))])])])])
        ?_ rfl rfl
      rw [uploadTarball]
      simp only [List.isEmpty_cons, Bool.false_eq_true, if_false]
      rw [hread, hm]
      rfl
    · refine hmain
        (Json.obj [(chars "versions", Json.obj [(chars "0.0.0", Json.obj [(chars "dist",
          Json.obj [(chars "tarball",
            Json.str (tarballUrl protocol host pkg filename))])])])])
        ?_ rfl rfl
      rw [uploadTarball]
      simp only [List.isEmpty_cons, Bool.false_eq_true, if_false]
      rw [hread, hm]
      rfl

/-- Witness for `upload_binds_version`: uploading `left-pad-1.0.0.tgz` to
`left-pad` on an empty store produces the expected locator (its suffix is
the url-escaped package name, the dash segment, then the url-escaped
filename), and the artifact bytes read back exactly. -/
theorem upload_binds_version_witness :
    (uploadTarball emptyFS (chars "left-pad") (chars "left-pad-1.0.0.tgz") [1, 2, 3]
      (chars "http") (chars "registry.local") 0).2 = UploadResult.ok ∧
    jsGetPath
        (readPackageMeta (uploadTarball emptyFS (chars "left-pad")
          (chars "left-pad-1.0.0.tgz") [1, 2, 3]
          (chars "http") (chars "registry.local") 0).1 (chars "left-pad"))
        [chars "versions", chars "0.0.0", chars "dist", chars "tarball"] =
      some (Json.str (chars "http://registry.local/left-pad/-/left-pad-1.0.0.tgz")) ∧
    (chars "/left-pad/-/left-pad-1.0.0.tgz").IsSuffix
      (tarballUrl (chars "http") (chars "registry.local") (chars "left-pad")
        (chars "left-pad-1.0.0.tgz")) ∧
    getTarballBytes (uploadTarball emptyFS (chars "left-pad")
        (chars "left-pad-1.0.0.tgz") [1, 2, 3]
        (chars "http") (chars "registry.local") 0).1
        (chars "left-pad") (chars "left-pad-1.0.0.tgz") =
      some (Content.bytes [1, 2, 3]) := by
  obtain ⟨h1, h2, h3⟩ := upload_binds_version emptyFS (chars "left-pad")
    (chars "left-pad-1.0.0.tgz") [1, 2, 3] (chars "http") (chars "registry.local") 0
    (by decide) (Or.inl rfl)
  exact ⟨h1, h2.trans (by rfl), by decide, h3⟩

end Gopu
